import Mathlib

/-!
Verification of the claims-submission text-embeddings pipeline.

This file shallowly embeds the core modules of the repository
(src/lib/text_chunker.py, src/lib/local_vector_db.py, src/lib/search_api.py)
as executable Lean definitions and proves or refutes the frozen claims about
them.  Python strings are modelled as lists of characters, Python floats as
exact rationals, Python dicts as insertion-ordered association lists, and
Python exceptions as explicit error values.  Wall-clock time is modelled as
the constant 0 since no claim concerns timing.
-/

namespace ClaimsPipeline

/-! ## Python-level primitives -/

/-- Characters treated as whitespace (the ASCII characters Python
whitespace handling is based on). -/
def isPySpace (c : Char) : Bool :=
  c = ' ' || c = '\t' || c = '\n' || c = '\r' || c = '\x0b' || c = '\x0c'

/-- Python `str.strip()`: drop whitespace from both ends. -/
def pyStrip (l : List Char) : List Char :=
  ((l.dropWhile isPySpace).reverse.dropWhile isPySpace).reverse

/-- Python slice `text[s:e]` on a list of characters. -/
def sliceChars (l : List Char) (s e : Nat) : List Char :=
  (l.drop s).take (e - s)

/-- Python dict lookup `m.get(k)` on an insertion-ordered association list. -/
def dictGet {α : Type} (m : List (String × α)) (k : String) : Option α :=
  (m.find? (fun kv => decide (kv.1 = k))).map (·.2)

/-- Python dict assignment `m[k] = v`: replace the value in place if the key
exists (keeping its insertion position), otherwise append the new pair. -/
def dictInsert {α : Type} (m : List (String × α)) (k : String) (v : α) :
    List (String × α) :=
  if m.any (fun kv => decide (kv.1 = k)) then
    m.map (fun kv => if kv.1 = k then (k, v) else kv)
  else
    m ++ [(k, v)]

/-! ## A small regular-expression engine

The chunker and the keyword extractor use a handful of Python regular
expressions.  Every repetition operator in those patterns applies to a
single-character class, so the abstract syntax below only needs literals,
character classes, `*` and `+` over classes, concatenation, and the
MULTILINE anchors.  `matches` returns the candidate end positions of a match
starting at a given position, in backtracking order (greedy alternatives
first), so the head of the list is the end position Python `re` would
report. -/

inductive RE : Type where
  | eps : RE
  | lit : Char → RE
  | cls : (Char → Bool) → RE
  | starCls : (Char → Bool) → RE
  | plusCls : (Char → Bool) → RE
  | seq : RE → RE → RE
  | eol : RE
  | bol : RE

/-- Length of the maximal run of characters satisfying `p` starting at `i`. -/
def runLen (t : List Char) (p : Char → Bool) (i : Nat) : Nat :=
  ((t.drop i).takeWhile p).length

/-- Candidate end positions (in backtracking order, greedy first) of a match
of the expression starting at position `i` of `t`. -/
def RE.matches (t : List Char) : RE → Nat → List Nat
  | .eps, i => [i]
  | .lit c, i => if t.get? i = some c then [i + 1] else []
  | .cls p, i =>
      match t.get? i with
      | some c => if p c then [i + 1] else []
      | none => []
  | .starCls p, i =>
      ((List.range (runLen t p i + 1)).reverse).map (fun k => i + k)
  | .plusCls p, i =>
      let r := runLen t p i
      if r = 0 then [] else ((List.range r).reverse).map (fun k => i + 1 + k)
  | .seq a b, i => (RE.matches t a i).flatMap (RE.matches t b)
  | .eol, i => if i = t.length ∨ t.get? i = some '\n' then [i] else []
  | .bol, i => if i = 0 ∨ t.get? (i - 1) = some '\n' then [i] else []

/-- End position of the (greedy) match of `r` at position `i`, if any. -/
def firstMatchEnd (r : RE) (t : List Char) (i : Nat) : Option Nat :=
  (RE.matches t r i).head?

/-- Find the leftmost match at a position `≥ i`, returning its span: the
first position in `i, i+1, …, length` where the expression matches. -/
def findFrom (r : RE) (t : List Char) (i : Nat) : Option (Nat × Nat) :=
  ((List.range (t.length + 1)).drop i).findSome?
    (fun j => (firstMatchEnd r t j).map (fun e => (j, e)))

/-- Worker for `finditer`: scan for non-overlapping matches left to right,
resuming after each match (advancing by one position on an empty match). -/
def finditerAux (r : RE) (t : List Char) : Nat → Nat → List (Nat × Nat)
  | 0, _ => []
  | fuel + 1, pos =>
      match findFrom r t pos with
      | none => []
      | some (i, e) => (i, e) :: finditerAux r t fuel (if i < e then e else e + 1)

/-- Python `re.finditer`: the spans of all non-overlapping matches. -/
def finditer (r : RE) (t : List Char) : List (Nat × Nat) :=
  finditerAux r t (t.length + 2) 0

/-- Worker for `pySub`: rebuild the text with each matched span replaced. -/
def pySubGo (t repl : List Char) : List (Nat × Nat) → Nat → List Char
  | [], cur => t.drop cur
  | (i, e) :: rest, cur => sliceChars t cur i ++ repl ++ pySubGo t repl rest e

/-- Python `re.sub(r, repl, t)` via the spans of `finditer`. -/
def pySub (r : RE) (repl : List Char) (t : List Char) : List Char :=
  pySubGo t repl (finditer r t) 0

/-- Python `re.search(r, t)` as a Boolean: does `r` match anywhere in `t`? -/
def reSearch (r : RE) (t : List Char) : Bool :=
  (List.range (t.length + 1)).any (fun i => !(RE.matches t r i).isEmpty)

/-- Concatenation of a list of expressions. -/
def reCat (l : List RE) : RE :=
  l.foldr RE.seq RE.eps

/-! ## Character classes used by the chunker patterns -/

def upperCls (c : Char) : Bool := 'A' ≤ c && c ≤ 'Z'
def lowerCls (c : Char) : Bool := 'a' ≤ c && c ≤ 'z'
def digitCls (c : Char) : Bool := '0' ≤ c && c ≤ '9'
def upperOrSpaceCls (c : Char) : Bool := upperCls c || isPySpace c
def sentenceEndCls (c : Char) : Bool := c = '.' || c = '!' || c = '?'
def wordCls (c : Char) : Bool := c.isAlphanum || c = '_'

/-! ## Text chunker (src/lib/text_chunker.py) -/

/-- The five section patterns of `ClaimsTextChunker.section_patterns`. -/
def sectionPatterns : List RE :=
  [ -- r'\n\s*[A-Z][A-Z\s]+:\s*$'
    reCat [.lit '\n', .starCls isPySpace, .cls upperCls, .plusCls upperOrSpaceCls,
           .lit ':', .starCls isPySpace, .eol],
    -- r'\n\s*\d+\.\s+[A-Z]'
    reCat [.lit '\n', .starCls isPySpace, .plusCls digitCls, .lit '.',
           .plusCls isPySpace, .cls upperCls],
    -- r'\n\s*[A-Z][a-z]+\s+[A-Z][a-z]+:'
    reCat [.lit '\n', .starCls isPySpace, .cls upperCls, .plusCls lowerCls,
           .plusCls isPySpace, .cls upperCls, .plusCls lowerCls, .lit ':'],
    -- r'\n\s*---+\s*$'
    reCat [.lit '\n', .starCls isPySpace, .lit '-', .lit '-', .plusCls (· = '-'),
           .starCls isPySpace, .eol],
    -- r'\n\s*===+\s*$'
    reCat [.lit '\n', .starCls isPySpace, .lit '=', .lit '=', .plusCls (· = '='),
           .starCls isPySpace, .eol] ]

/-- r'[.!?]+\s+' (sentence boundaries; the match end is recorded). -/
def sentenceEndPattern : RE :=
  reCat [.plusCls sentenceEndCls, .plusCls isPySpace]

/-- r'\n\s*\n' (paragraph boundaries; the match start is recorded). -/
def paragraphBreakPattern : RE :=
  reCat [.lit '\n', .starCls isPySpace, .lit '\n']

/-- Control characters removed by `_clean_text`:
r'[\x00-\x08\x0b\x0c\x0e-\x1f\x7f-\x9f]'. -/
def ctrlCls (c : Char) : Bool :=
  (c.toNat ≤ 0x08) || c.toNat = 0x0b || c.toNat = 0x0c ||
  (0x0e ≤ c.toNat && c.toNat ≤ 0x1f) || (0x7f ≤ c.toNat && c.toNat ≤ 0x9f)

/-- `ClaimsTextChunker._clean_text`: collapse whitespace runs to a single
space, collapse newline runs, remove control characters, strip. -/
def clean_text (text : List Char) : List Char :=
  let t1 := pySub (.plusCls isPySpace) [' '] text
  let t2 := pySub (.plusCls (· = '\n')) ['\n'] t1
  let t3 := pySub (.cls ctrlCls) [] t2
  pyStrip t3

/-- `sorted(list(set(pts)))` for positions bounded by `bound`. -/
def sortedDedup (pts : List Nat) (bound : Nat) : List Nat :=
  (List.range (bound + 1)).filter (fun i => pts.contains i)

/-- `ClaimsTextChunker._find_break_points`. -/
def find_break_points (text : List Char) : List Nat :=
  let patternStarts := sectionPatterns.flatMap (fun p => (finditer p text).map (·.1))
  let sentenceEnds := (finditer sentenceEndPattern text).map (·.2)
  let paragraphStarts := (finditer paragraphBreakPattern text).map (·.1)
  let pts := sortedDedup (patternStarts ++ sentenceEnds ++ paragraphStarts) text.length
  [0] ++ pts ++ [text.length]

/-- `ClaimsTextChunker._find_best_break_point`: the largest recorded break
point within the last fifth of the proposed window, else the raw end. -/
def find_best_break_point (start endPos : Nat) (break_points : List Nat)
    (chunk_size : Nat) : Nat :=
  let searchStart := max start (endPos - chunk_size / 5)
  match break_points.reverse.find? (fun bp => searchStart ≤ bp && bp ≤ endPos) with
  | some bp => bp
  | none => endPos

/-- `ClaimsTextChunker._is_complete_section`: any of the three section
indicator patterns matches somewhere in the chunk content (re.search with
MULTILINE). -/
def is_complete_section (chunk_content : List Char) : Bool :=
  -- r'^[A-Z][A-Z\s]+:\s*$'
  reSearch (reCat [.bol, .cls upperCls, .plusCls upperOrSpaceCls, .lit ':',
                   .starCls isPySpace, .eol]) chunk_content ||
  -- r'^\d+\.\s+[A-Z]'
  reSearch (reCat [.bol, .plusCls digitCls, .lit '.', .plusCls isPySpace,
                   .cls upperCls]) chunk_content ||
  -- r'^[A-Z][a-z]+\s+[A-Z][a-z]+:'
  reSearch (reCat [.bol, .cls upperCls, .plusCls lowerCls, .plusCls isPySpace,
                   .cls upperCls, .plusCls lowerCls, .lit ':']) chunk_content

/-- `pathlib.Path(s).name`: the component after the last separator
(ignoring trailing separators). -/
def pathName (s : String) : List Char :=
  let l := (s.toList.reverse.dropWhile (· = '/')).reverse
  (l.reverse.takeWhile (· ≠ '/')).reverse

/-- `pathlib.Path(s).stem`: the name with its last suffix removed; a suffix
exists only when the last dot is neither the first nor the last character. -/
def pathStem (s : String) : String :=
  let name := pathName s
  match (name.reverse.findIdx? (· = '.')).map (fun j => name.length - 1 - j) with
  | some i => if 0 < i ∧ i < name.length - 1 then String.mk (name.take i)
              else String.mk name
  | none => String.mk name

/-- Python format `f"{n:03d}"`. -/
def pad3 (n : Nat) : String :=
  let s := toString n
  String.mk (List.replicate (3 - s.length) '0') ++ s

/-- The chunk identifier f"{Path(source_file).stem}_chunk_{chunk_index:03d}". -/
def mkChunkId (source_file : String) (chunk_index : Nat) : String :=
  pathStem source_file ++ "_chunk_" ++ pad3 chunk_index

/-- Values stored in metadata dictionaries. -/
inductive MetaVal : Type where
  | vstr : String → MetaVal
  | vint : Int → MetaVal
deriving DecidableEq, Repr

/-- The metadata dictionary attached to each chunk by `_create_chunks`. -/
structure ChunkMetadata : Type where
  file_metadata : List (String × MetaVal)
  chunk_size : Nat
  is_complete_section : Bool
deriving DecidableEq, Repr

/-- The `TextChunk` dataclass. -/
structure TextChunk : Type where
  content : List Char
  chunk_id : String
  source_file : String
  chunk_index : Nat
  start_char : Nat
  end_char : Nat
  metadata : ChunkMetadata
deriving DecidableEq, Repr

/-- One iteration's final window end: propose `min(start+chunk_size, n)`,
snap to the best break point when it lies strictly beyond `start_pos`. -/
def chunk_end_pos (text : List Char) (break_points : List Nat)
    (chunk_size start_pos : Nat) : Nat :=
  let end_raw := min (start_pos + chunk_size) text.length
  let best_break := find_best_break_point start_pos end_raw break_points chunk_size
  if start_pos < best_break then best_break else end_raw

/-- The loop body of `ClaimsTextChunker._create_chunks`, with two ghost
outputs besides the emitted chunks: the windows that were skipped because
their stripped content was shorter than `min_chunk_size`, and a flag
recording whether the loop reached `start_pos ≥ len(text)` within the given
fuel (the Python loop has no fuel; a `false` flag marks divergence). -/
def create_chunks_aux (text : List Char) (break_points : List Nat)
    (chunk_size chunk_overlap min_chunk_size : Nat) (source_file : String)
    (file_metadata : List (String × MetaVal)) :
    Nat → Nat → Nat → List TextChunk × List (Nat × Nat) × Bool
  | 0, start_pos, _ => ([], [], decide (text.length ≤ start_pos))
  | fuel + 1, start_pos, chunk_index =>
      if start_pos < text.length then
        let end_pos := chunk_end_pos text break_points chunk_size start_pos
        let chunk_content := pyStrip (sliceChars text start_pos end_pos)
        if chunk_content.length < min_chunk_size then
          let rest := create_chunks_aux text break_points chunk_size chunk_overlap
            min_chunk_size source_file file_metadata fuel end_pos chunk_index
          (rest.1, (start_pos, end_pos) :: rest.2.1, rest.2.2)
        else
          let chunk : TextChunk :=
            { content := chunk_content
              chunk_id := mkChunkId source_file chunk_index
              source_file := source_file
              chunk_index := chunk_index
              start_char := start_pos
              end_char := end_pos
              metadata :=
                { file_metadata := file_metadata
                  chunk_size := chunk_content.length
                  is_complete_section := is_complete_section chunk_content } }
          let rest := create_chunks_aux text break_points chunk_size chunk_overlap
            min_chunk_size source_file file_metadata fuel
            (max (start_pos + 1) (end_pos - chunk_overlap)) (chunk_index + 1)
          (chunk :: rest.1, rest.2.1, rest.2.2)
      else ([], [], true)

/-- `_create_chunks` with its ghost outputs, run with enough fuel for any
terminating execution (the loop makes at least one character of progress per
iteration whenever `chunk_size ≥ 1`). -/
def create_chunks_impl (text : List Char) (break_points : List Nat)
    (chunk_size chunk_overlap min_chunk_size : Nat) (source_file : String)
    (file_metadata : List (String × MetaVal)) :
    List TextChunk × List (Nat × Nat) × Bool :=
  create_chunks_aux text break_points chunk_size chunk_overlap min_chunk_size
    source_file file_metadata (text.length + 1) 0 0

/-- `ClaimsTextChunker._create_chunks`: the emitted chunks. -/
def create_chunks (text : List Char) (break_points : List Nat)
    (chunk_size chunk_overlap min_chunk_size : Nat) (source_file : String)
    (file_metadata : List (String × MetaVal)) : List TextChunk :=
  (create_chunks_impl text break_points chunk_size chunk_overlap min_chunk_size
    source_file file_metadata).1

/-- `ClaimsTextChunker.chunk_text`. -/
def chunk_text (chunk_size chunk_overlap min_chunk_size : Nat)
    (text : List Char) (source_file : String)
    (file_metadata : List (String × MetaVal)) : List TextChunk :=
  if text.isEmpty || (pyStrip text).length < min_chunk_size then []
  else
    let cleaned := clean_text text
    let bps := find_break_points cleaned
    create_chunks cleaned bps chunk_size chunk_overlap min_chunk_size
      source_file file_metadata

/-! ## Local vector database (src/lib/local_vector_db.py)

Vectors are modelled as lists of exact rationals and the FAISS
`IndexFlatIP` as the list of stored vectors with its fixed dimension.
Exact inner-product search returns, for `k ≤ ntotal`, the `k` best
`(score, position)` pairs in descending score order; among equal scores the
model returns lower positions first (FAISS leaves the tie order
unspecified).  Disk persistence (`_save_index`/`_load_index`) is outside
the model; `_save_index` swallows its own exceptions in the source, so it
never changes the in-memory state or the return value. -/

/-- The `SearchResult` dataclass (identical in `local_vector_db.py` and
`vector_database.py`). -/
structure SearchResult : Type where
  chunk_id : String
  content : String
  source_file : String
  score : ℚ
  metadata : List (String × MetaVal)
deriving DecidableEq, Repr

/-- The `EmbeddingResult` dataclass of `embeddings_generator.py`. -/
structure EmbeddingResult : Type where
  chunk_id : String
  embedding : List ℚ
  source_file : String
  content : String
  metadata : List (String × MetaVal)
  model_name : String
  embedding_dim : Nat
deriving DecidableEq, Repr

/-- A FAISS `IndexFlatIP`: a fixed dimension and the stored vectors in
append order. -/
structure FaissIndexFlatIP : Type where
  d : Nat
  vectors : List (List ℚ)
deriving DecidableEq, Repr

/-- Inner product of two vectors. -/
def dotIP (u v : List ℚ) : ℚ :=
  (List.zipWith (· * ·) u v).sum

/-- Descending-score order on scored positions. -/
def faissRel (a b : ℚ × Nat) : Prop := b.1 ≤ a.1

instance : DecidableRel faissRel := fun a b => inferInstanceAs (Decidable (b.1 ≤ a.1))

/-- Exact search on `IndexFlatIP`: score every stored vector against the
query, sort by descending score (stable, so equal scores keep position
order) and keep the best `k`. -/
def faissSearchIP (idx : FaissIndexFlatIP) (q : List ℚ) (k : Nat) :
    List (ℚ × Nat) :=
  let scored := idx.vectors.enum.map (fun p => (dotIP p.2 q, p.1))
  (List.insertionSort faissRel scored).take k

/-- The in-memory state of a `LocalVectorDB` instance. -/
structure LocalVectorDB : Type where
  index : Option FaissIndexFlatIP
  metadata : List (String × List (String × MetaVal))
  dimension : Option Nat
  is_trained : Bool
deriving DecidableEq, Repr

/-- The state right after `__init__` when no persisted index is found. -/
def emptyLocalVectorDB : LocalVectorDB :=
  { index := none, metadata := [], dimension := none, is_trained := false }

/-- Number of stored vectors (`index.ntotal`, or 0 with no index). -/
def LocalVectorDB.ntotal (db : LocalVectorDB) : Nat :=
  match db.index with
  | some idx => idx.vectors.length
  | none => 0

/-- `LocalVectorDB.create_index`: unconditionally replace the index with a
fresh empty `IndexFlatIP` of the given dimension (the `index_name` argument
is ignored by the local backend). -/
def LocalVectorDB.create_index (db : LocalVectorDB) (dimension : Nat) :
    LocalVectorDB × Bool :=
  ({ db with
      dimension := some dimension
      index := some { d := dimension, vectors := [] }
      is_trained := true }, true)

/-- `LocalVectorDB.delete_index`: clear the in-memory state (and remove the
persisted files, which are outside the model). -/
def LocalVectorDB.delete_index (db : LocalVectorDB) : LocalVectorDB × Bool :=
  ({ db with index := none, metadata := [], is_trained := false }, true)

/-- The metadata dictionary stored for one embedding:
`{'source_file': …, 'content': …, 'model_name': …, 'embedding_dim': …,
**emb.metadata}` (later keys override earlier ones). -/
def storedMetaOf (e : EmbeddingResult) : List (String × MetaVal) :=
  ([("source_file", MetaVal.vstr e.source_file),
    ("content", MetaVal.vstr e.content),
    ("model_name", MetaVal.vstr e.model_name),
    ("embedding_dim", MetaVal.vint e.embedding_dim)] ++ e.metadata).foldl
    (fun m kv => dictInsert m kv.1 kv.2) []

/-- Do all records in the batch have embeddings of one common length?
(`np.vstack` raises otherwise.) -/
def sameEmbeddingLengths : List EmbeddingResult → Bool
  | [] => true
  | e :: rest => rest.all (fun x => x.embedding.length = e.embedding.length)

/-- `LocalVectorDB.upsert_embeddings`.  The source mutates `self.metadata`
for every record of the batch while collecting the vectors, and only then
calls `np.vstack` and `index.add`; any exception there (empty batch,
inconsistent shapes, missing index, dimension mismatch) is caught and
turned into `False`, but the metadata mutations have already happened. -/
def LocalVectorDB.upsert_embeddings (db : LocalVectorDB)
    (embeddings : List EmbeddingResult) : LocalVectorDB × Bool :=
  if !db.is_trained && embeddings.isEmpty then (db, false)
  else
    let db1 := if !db.is_trained then
        match embeddings with
        | [] => db
        | e :: _ => (db.create_index e.embedding_dim).1
      else db
    let db2 := { db1 with
      metadata := embeddings.foldl
        (fun m e => dictInsert m e.chunk_id (storedMetaOf e)) db1.metadata }
    if embeddings.isEmpty then (db2, false)
    else if !sameEmbeddingLengths embeddings then (db2, false)
    else
      match db2.index with
      | none => (db2, false)
      | some idx =>
          if embeddings.all (fun e => e.embedding.length = idx.d) then
            ({ db2 with index := some { idx with
                vectors := idx.vectors ++ embeddings.map (·.embedding) } }, true)
          else (db2, false)

/-- `LocalVectorDB.search`: query FAISS for `min(top_k, ntotal)` hits, then
translate each hit position to a chunk id by indexing the list of metadata
keys, silently dropping positions at or beyond the number of keys. -/
def LocalVectorDB.search (db : LocalVectorDB) (query_embedding : List ℚ)
    (top_k : Nat) : List SearchResult :=
  if !db.is_trained then []
  else
    match db.index with
    | none => []
    | some idx =>
        if query_embedding.length ≠ idx.d then []
        else
          let hits := faissSearchIP idx query_embedding (min top_k idx.vectors.length)
          let chunk_ids := db.metadata.map (·.1)
          hits.filterMap (fun h =>
            if hlt : h.2 < chunk_ids.length then
              let chunk_id := chunk_ids.get ⟨h.2, hlt⟩
              let md := (dictGet db.metadata chunk_id).getD []
              some { chunk_id := chunk_id
                     content := match dictGet md "content" with
                                | some (MetaVal.vstr s) => s
                                | _ => ""
                     source_file := match dictGet md "source_file" with
                                    | some (MetaVal.vstr s) => s
                                    | _ => ""
                     score := h.1
                     metadata := md }
            else none)

/-- `LocalVectorDB.get_stats` (the fields the claims mention). -/
def LocalVectorDB.get_stats (db : LocalVectorDB) : Nat × Nat :=
  if !db.is_trained || db.index.isNone then (0, 0)
  else (db.ntotal, db.dimension.getD 0)

/-! ## Search API (src/lib/search_api.py)

The embeddings generator and the vector-database manager are external
collaborators; they are modelled as functions that either return a value or
raise (`Except.error`), exactly the distinction the `try/except` blocks in
the source react to. -/

/-- Values allowed in a search filter: a scalar or a list of scalars. -/
inductive FilterVal : Type where
  | fval : MetaVal → FilterVal
  | flist : List MetaVal → FilterVal
deriving DecidableEq, Repr

/-- The `SearchQuery` dataclass. -/
structure SearchQuery : Type where
  query_text : String
  search_type : String
  top_k : Nat
  min_score : ℚ
  filters : List (String × FilterVal)
deriving DecidableEq, Repr

/-- The response metadata dict: either the normal
`{'index_name', 'model_name', 'timestamp'}` payload (the timestamp is
wall-clock and outside the model) or the `{'error': …}` payload built in
the exception handler. -/
inductive RespMeta : Type where
  | info : String → String → RespMeta
  | err : String → RespMeta
deriving DecidableEq, Repr

/-- The `SearchResponse` dataclass; `search_time_ms` is wall-clock and is
modelled as 0. -/
structure SearchResponse : Type where
  query : SearchQuery
  results : List SearchResult
  total_results : Nat
  search_time_ms : ℚ
  search_type : String
  metadata : RespMeta

/-- A `ClaimsSearchAPI` instance together with the behaviour of its two
collaborators: embedding a query text and searching the vector database. -/
structure ClaimsSearchAPI : Type where
  embedQuery : String → Except String (List ℚ)
  dbSearch : List ℚ → Nat → Except String (List SearchResult)
  index_name : String
  model_name : String

/-- The stop-word set of `_extract_keywords`. -/
def stopWords : List String :=
  ["the", "a", "an", "and", "or", "but", "in", "on", "at", "to", "for",
   "of", "with", "by"]

/-- `ClaimsSearchAPI._extract_keywords`: lowercase word tokens (r'\b\w+\b')
longer than two characters and not stop words. -/
def extract_keywords (text : String) : List String :=
  let lowered := text.toLower.toList
  let words := (finditer (.plusCls wordCls) lowered).map
    (fun s => String.mk (sliceChars lowered s.1 s.2))
  words.filter (fun w => 2 < w.length && !stopWords.contains w)

/-- `ClaimsSearchAPI._vector_search`: embed the query and search the vector
database; any exception in either step is caught inside the helper and
yields an empty list. -/
def ClaimsSearchAPI.vector_search (api : ClaimsSearchAPI) (q : SearchQuery) :
    List SearchResult :=
  match api.embedQuery q.query_text with
  | .error _ => []
  | .ok v =>
      match api.dbSearch v q.top_k with
      | .error _ => []
      | .ok rs => rs

/-- `ClaimsSearchAPI._keyword_search`: extracts the query keywords and then
returns the empty placeholder result list. -/
def keyword_search (q : SearchQuery) : List SearchResult :=
  let _query_terms := extract_keywords q.query_text
  []

/-- An entry of the `combined_results` dict in `_combine_search_results`. -/
structure CombEntry : Type where
  result : SearchResult
  vector_score : ℚ
  keyword_score : ℚ
  combined_score : ℚ
deriving DecidableEq, Repr

/-- Descending order on combined scores; `List.insertionSort` with this
relation is a stable descending sort, the behaviour of Python
`sorted(..., key=lambda x: x['combined_score'], reverse=True)`. -/
def combRel (a b : CombEntry) : Prop := b.combined_score ≤ a.combined_score

instance : DecidableRel combRel :=
  fun a b => inferInstanceAs (Decidable (b.combined_score ≤ a.combined_score))

instance : IsTotal CombEntry combRel := ⟨fun a b => le_total b.combined_score a.combined_score⟩

instance : IsTrans CombEntry combRel := ⟨fun _ _ _ h h' => le_trans h' h⟩

/-- The keyword pass of `_combine_search_results` for one keyword result:
update the existing entry of the same chunk id in place (adding the 0.3
weighted keyword score to the combined score), or insert a keyword-only
entry. -/
def kstep (m : List (String × CombEntry)) (r : SearchResult) :
    List (String × CombEntry) :=
  match dictGet m r.chunk_id with
  | some entry => dictInsert m r.chunk_id
      { entry with keyword_score := r.score,
                   combined_score := entry.combined_score + r.score * (3/10) }
  | none => dictInsert m r.chunk_id
      { result := r, vector_score := 0, keyword_score := r.score,
        combined_score := r.score * (3/10) }

/-- `ClaimsSearchAPI._combine_search_results`: build the `combined_results`
dict keyed by chunk id (vector results first with weight 0.7, then keyword
results with weight 0.3, updating in place on a shared chunk id), sort its
values by descending combined score (stably, as Python `sorted` with
`reverse=True`), and rewrite each result score. -/
def combine_search_results (vector_results keyword_results : List SearchResult) :
    List SearchResult :=
  let m0 : List (String × CombEntry) := vector_results.foldl
    (fun m r => dictInsert m r.chunk_id
      { result := r, vector_score := r.score, keyword_score := 0,
        combined_score := r.score * (7/10) }) []
  let m1 := keyword_results.foldl kstep m0
  let sortedEntries := List.insertionSort combRel (m1.map (·.2))
  sortedEntries.map (fun e => { e.result with score := e.combined_score })

/-- `ClaimsSearchAPI._hybrid_search`. -/
def ClaimsSearchAPI.hybrid_search (api : ClaimsSearchAPI) (q : SearchQuery) :
    List SearchResult :=
  combine_search_results (api.vector_search q) (keyword_search q)

/-- Does a result pass every filter?  A filter key absent from the result
metadata is skipped; a present key requires equality with the filter value,
or membership when the filter value is a list. -/
def passesFilters (r : SearchResult) (filters : List (String × FilterVal)) : Bool :=
  filters.all (fun kv =>
    match dictGet r.metadata kv.1 with
    | none => true
    | some v =>
        match kv.2 with
        | .flist vs => decide (v ∈ vs)
        | .fval fv => decide (v = fv))

/-- `ClaimsSearchAPI._apply_filters`. -/
def apply_filters (results : List SearchResult)
    (filters : List (String × FilterVal)) : List SearchResult :=
  results.filter (fun r => passesFilters r filters)

/-- The dispatch on `query.search_type` at the top of `ClaimsSearchAPI.search`;
an unsupported type raises a `ValueError`, which the surrounding handler
catches. -/
def search_dispatch (api : ClaimsSearchAPI) (q : SearchQuery) :
    Except String (List SearchResult) :=
  if q.search_type = "vector" then .ok (api.vector_search q)
  else if q.search_type = "keyword" then .ok (keyword_search q)
  else if q.search_type = "hybrid" then .ok (api.hybrid_search q)
  else .error ("Unsupported search type: " ++ q.search_type)

/-- `ClaimsSearchAPI.search`: run the dispatched search path (any exception
there produces the error response of the handler), filter by minimum score,
apply the metadata filters when present, truncate to `top_k`, and wrap
everything in a `SearchResponse`. -/
def ClaimsSearchAPI.search (api : ClaimsSearchAPI) (q : SearchQuery) :
    SearchResponse :=
  match search_dispatch api q with
  | .error e =>
      { query := q, results := [], total_results := 0, search_time_ms := 0,
        search_type := q.search_type, metadata := .err e }
  | .ok results =>
      let filtered := results.filter (fun r => q.min_score ≤ r.score)
      let filtered2 := if q.filters.isEmpty then filtered
                       else apply_filters filtered q.filters
      let final := filtered2.take q.top_k
      { query := q, results := final, total_results := final.length,
        search_time_ms := 0, search_type := q.search_type,
        metadata := .info api.index_name api.model_name }

/-! ## Derived notions used to state the claims -/

/-- Does a metadata value satisfy a filter value (equality, or membership
when the filter value is a list)? -/
def filterMatches : FilterVal → MetaVal → Prop
  | .flist vs, v => v ∈ vs
  | .fval fv, v => v = fv

/-- The score a chunk id received in a result list (0 when absent). -/
def scoreOf (rs : List SearchResult) (cid : String) : ℚ :=
  match rs.find? (fun r => decide (r.chunk_id = cid)) with
  | some r => r.score
  | none => 0

/-- The keyword results whose chunk id does not occur in the vector
results. -/
def kwOnly (vr kr : List SearchResult) : List SearchResult :=
  kr.filter (fun k => vr.all (fun v => !decide (v.chunk_id = k.chunk_id)))

/-- The `combined_results` entry produced for a vector result, after the
keyword pass. -/
def ventry (kr : List SearchResult) (r : SearchResult) : CombEntry :=
  match kr.find? (fun k => decide (k.chunk_id = r.chunk_id)) with
  | some k => { result := r, vector_score := r.score, keyword_score := k.score,
                combined_score := r.score * (7/10) + k.score * (3/10) }
  | none => { result := r, vector_score := r.score, keyword_score := 0,
              combined_score := r.score * (7/10) }

/-- The `combined_results` entry produced for a keyword-only result. -/
def kentry (k : SearchResult) : CombEntry :=
  { result := k, vector_score := 0, keyword_score := k.score,
    combined_score := k.score * (3/10) }

/-- The values of the `combined_results` dict in its insertion order:
vector results first (in vector rank order), then keyword-only results. -/
def entriesSpec (vr kr : List SearchResult) : List CombEntry :=
  vr.map (ventry kr) ++ (kwOnly vr kr).map kentry

/-- The combined score `0.7 * vector_score + 0.3 * keyword_score` of a
vector result, with keyword score 0 when its chunk id has no keyword
result. -/
def hybridScore (kr : List SearchResult) (r : SearchResult) : ℚ :=
  r.score * (7/10) + scoreOf kr r.chunk_id * (3/10)

/-- The `combined_results` dict after the vector pass and a prefix `done` of
the keyword pass: vector entries in vector order, then the processed
keyword-only entries. -/
def combMap (vr done : List SearchResult) : List (String × CombEntry) :=
  vr.map (fun r => (r.chunk_id, ventry done r)) ++
    (kwOnly vr done).map (fun k => (k.chunk_id, kentry k))

/-- The id-to-metadata mapping after absorbing a batch (the mutation the
upsert loop performs before any FAISS call). -/
def upsertMeta (db : LocalVectorDB) (embs : List EmbeddingResult) :
    List (String × List (String × MetaVal)) :=
  embs.foldl (fun m e => dictInsert m e.chunk_id (storedMetaOf e)) db.metadata

/-! ## Concrete states and inputs used by counterexamples and witnesses -/

/-- A trained local store holding one 2-dimensional vector for chunk a. -/
def dbA : LocalVectorDB :=
  { index := some { d := 2, vectors := [[1, 0]] },
    metadata := [("a", [("content", MetaVal.vstr "x")])],
    dimension := some 2, is_trained := true }

/-- A record whose vector dimension (3) mismatches the dimension of `dbA`. -/
def e3 : EmbeddingResult :=
  { chunk_id := "b", embedding := [1, 0, 0], source_file := "s", content := "c",
    metadata := [], model_name := "m", embedding_dim := 3 }

/-- First upsert of chunk a. -/
def recA1 : EmbeddingResult :=
  { chunk_id := "a", embedding := [1, 0], source_file := "f1",
    content := "first a", metadata := [], model_name := "m", embedding_dim := 2 }

/-- Second record carrying the same chunk id a with a different vector. -/
def recA2 : EmbeddingResult :=
  { chunk_id := "a", embedding := [0, 1], source_file := "f1",
    content := "second a", metadata := [], model_name := "m", embedding_dim := 2 }

/-- A record for chunk b. -/
def recB : EmbeddingResult :=
  { chunk_id := "b", embedding := [1, 0], source_file := "f2",
    content := "b", metadata := [], model_name := "m", embedding_dim := 2 }

/-- Store after upserting `recA1` into a fresh database. -/
def S0 : LocalVectorDB := (emptyLocalVectorDB.upsert_embeddings [recA1]).1

/-- Store after the duplicate-id upsert of `recA2`. -/
def S1 : LocalVectorDB := (S0.upsert_embeddings [recA2]).1

/-- Store after additionally upserting `recB`. -/
def S2 : LocalVectorDB := (S1.upsert_embeddings [recB]).1

/-- The literal value of `S2` (two metadata keys but three stored vectors:
position 1 holds the vector of the second a-upsert, position 2 the vector
of chunk b). -/
def S2lit : LocalVectorDB :=
  ⟨some ⟨2, [[1, 0], [0, 1], [1, 0]]⟩,
   [("a", storedMetaOf recA2), ("b", storedMetaOf recB)], some 2, true⟩

/-- Vector result A with score 0.9 (the scenario of the hybrid example). -/
def exVecA : SearchResult :=
  { chunk_id := "A", content := "ca", source_file := "fa", score := 9/10,
    metadata := [] }

/-- Keyword result A with score 0.5. -/
def exKwA : SearchResult :=
  { chunk_id := "A", content := "ca", source_file := "fa", score := 1/2,
    metadata := [] }

/-- Keyword result B with score 0.8. -/
def exKwB : SearchResult :=
  { chunk_id := "B", content := "cb", source_file := "fb", score := 4/5,
    metadata := [] }

/-- An API whose embedding collaborator raises on every query. -/
def badApi : ClaimsSearchAPI :=
  { embedQuery := fun _ => .error "model failure",
    dbSearch := fun _ _ => .ok [],
    index_name := "claims-embeddings", model_name := "m" }

/-- A vector-type query. -/
def qVector : SearchQuery :=
  { query_text := "t", search_type := "vector", top_k := 5, min_score := 0,
    filters := [] }

/-- A query with an unsupported search type. -/
def qBogus : SearchQuery :=
  { query_text := "t", search_type := "semantic", top_k := 5, min_score := 0,
    filters := [] }

/-- A result tagged with state CA and a high score. -/
def okRes1 : SearchResult :=
  { chunk_id := "r1", content := "c1", source_file := "f1", score := 9/10,
    metadata := [("state", MetaVal.vstr "CA")] }

/-- A result tagged with state NY and a middling score. -/
def okRes2 : SearchResult :=
  { chunk_id := "r2", content := "c2", source_file := "f2", score := 3/5,
    metadata := [("state", MetaVal.vstr "NY")] }

/-- A result with no metadata and a low score. -/
def okRes3 : SearchResult :=
  { chunk_id := "r3", content := "c3", source_file := "f3", score := 1/10,
    metadata := [] }

/-- Results returned by the healthy store of `okApi`. -/
def okResults : List SearchResult := [okRes1, okRes2, okRes3]

/-- The filter map used by the filtering witnesses. -/
def stateFilter : List (String × FilterVal) :=
  [("state", FilterVal.fval (MetaVal.vstr "CA"))]

/-- An API whose collaborators succeed and return `okResults`. -/
def okApi : ClaimsSearchAPI :=
  { embedQuery := fun _ => .ok [1, 0],
    dbSearch := fun _ _ => .ok okResults,
    index_name := "claims-embeddings", model_name := "m" }

/-- A vector query with a filter and a score threshold. -/
def qFiltered : SearchQuery :=
  { query_text := "t", search_type := "vector", top_k := 2, min_score := 1/2,
    filters := [("state", FilterVal.fval (MetaVal.vstr "CA"))] }

/-! ## Association-list lemmas -/

theorem dictInsert_of_not_mem {α : Type} (m : List (String × α)) (k : String)
    (v : α) (h : m.any (fun kv => decide (kv.1 = k)) = false) :
    dictInsert m k v = m ++ [(k, v)] := by
  simp [dictInsert, h]

theorem length_dictInsert_le {α : Type} (m : List (String × α)) (k : String)
    (v : α) : (dictInsert m k v).length ≤ m.length + 1 := by
  unfold dictInsert
  split
  · simp
  · simp

theorem length_dictInsert_of_mem {α : Type} (m : List (String × α)) (k : String)
    (v : α) (h : m.any (fun kv => decide (kv.1 = k)) = true) :
    (dictInsert m k v).length = m.length := by
  simp [dictInsert, h]

theorem any_dictInsert_of_any {α : Type} (m : List (String × α)) (k k' : String)
    (v : α) (h : m.any (fun kv => decide (kv.1 = k')) = true) :
    (dictInsert m k v).any (fun kv => decide (kv.1 = k')) = true := by
  unfold dictInsert
  split
  · simp only [List.any_eq_true, decide_eq_true_eq] at h ⊢
    obtain ⟨kv, hm, hk⟩ := h
    refine ⟨if kv.1 = k then (k, v) else kv, List.mem_map_of_mem _ hm, ?_⟩
    split
    · simp_all
    · exact hk
  · simp only [List.any_append, h, Bool.true_or]

theorem length_foldl_dictInsert_le {α : Type} (g : EmbeddingResult → α) :
    ∀ (l : List EmbeddingResult) (m : List (String × α)),
      (l.foldl (fun m e => dictInsert m e.chunk_id (g e)) m).length ≤
        m.length + l.length := by
  intro l
  induction l with
  | nil => intro m; simp
  | cons e rest ih =>
      intro m
      calc (List.foldl _ (dictInsert m e.chunk_id (g e)) rest).length
          ≤ (dictInsert m e.chunk_id (g e)).length + rest.length := ih _
        _ ≤ m.length + 1 + rest.length :=
            Nat.add_le_add_right (length_dictInsert_le m _ _) _
        _ = m.length + (e :: rest).length := by simp; omega

theorem length_foldl_dictInsert_lt {α : Type} (g : EmbeddingResult → α) :
    ∀ (l : List EmbeddingResult) (m : List (String × α)),
      (∃ e ∈ l, m.any (fun kv => decide (kv.1 = e.chunk_id)) = true) →
      (l.foldl (fun m e => dictInsert m e.chunk_id (g e)) m).length <
        m.length + l.length := by
  intro l
  induction l with
  | nil => intro m h; simp at h
  | cons e rest ih =>
      intro m h
      obtain ⟨e', he', hk⟩ := h
      rcases List.mem_cons.mp he' with rfl | hmem
      · have h1 : (dictInsert m e'.chunk_id (g e')).length = m.length :=
          length_dictInsert_of_mem m _ _ hk
        calc (List.foldl _ (dictInsert m e'.chunk_id (g e')) rest).length
            ≤ (dictInsert m e'.chunk_id (g e')).length + rest.length :=
              length_foldl_dictInsert_le g rest _
          _ = m.length + rest.length := by rw [h1]
          _ < m.length + (e' :: rest).length := by simp
      · have hk' : (dictInsert m e.chunk_id (g e)).any
            (fun kv => decide (kv.1 = e'.chunk_id)) = true :=
          any_dictInsert_of_any m _ _ _ hk
        calc (List.foldl _ (dictInsert m e.chunk_id (g e)) rest).length
            < (dictInsert m e.chunk_id (g e)).length + rest.length :=
              ih _ ⟨e', hmem, hk'⟩
          _ ≤ m.length + 1 + rest.length :=
              Nat.add_le_add_right (length_dictInsert_le m _ _) _
          _ = m.length + (e :: rest).length := by simp; omega

/-! ## Unfolding lemmas for `upsert_embeddings` on a trained store -/

theorem sameEmbeddingLengths_of_all_eq (embs : List EmbeddingResult) (d : Nat)
    (h : ∀ e ∈ embs, e.embedding.length = d) :
    sameEmbeddingLengths embs = true := by
  cases embs with
  | nil => rfl
  | cons e rest =>
      simp only [sameEmbeddingLengths, List.all_eq_true, decide_eq_true_eq]
      intro x hx
      rw [h x (List.mem_cons_of_mem _ hx), h e (List.mem_cons_self _ _)]

theorem upsert_embeddings_mismatch (db : LocalVectorDB) (idx : FaissIndexFlatIP)
    (embs : List EmbeddingResult) (htr : db.is_trained = true)
    (hidx : db.index = some idx) (hne : embs ≠ [])
    (hbad : ∃ e ∈ embs, e.embedding.length ≠ idx.d) :
    db.upsert_embeddings embs =
      ({ db with metadata := upsertMeta db embs }, false) := by
  obtain ⟨e0, rest, rfl⟩ : ∃ h t, embs = h :: t := by
    cases embs with
    | nil => exact absurd rfl hne
    | cons h t => exact ⟨h, t, rfl⟩
  unfold LocalVectorDB.upsert_embeddings upsertMeta
  simp only [htr, Bool.not_true, Bool.false_and, List.isEmpty_cons, if_neg,
    Bool.false_eq_true, not_false_iff, if_false]
  by_cases hsame : sameEmbeddingLengths (e0 :: rest) = true
  · simp only [hsame, Bool.not_true, Bool.false_eq_true, if_false, hidx]
    have hall : (e0 :: rest).all (fun e => decide (e.embedding.length = idx.d)) = false := by
      obtain ⟨e, he, hne'⟩ := hbad
      simp only [List.all_eq_true, decide_eq_true_eq, not_forall] at *
      simp only [Bool.not_eq_true, List.all_eq_false, decide_eq_true_eq]
      exact ⟨e, he, hne'⟩
    simp [hall]
  · simp only [Bool.not_eq_true] at hsame
    simp [hsame]

theorem upsert_embeddings_success (db : LocalVectorDB) (idx : FaissIndexFlatIP)
    (embs : List EmbeddingResult) (htr : db.is_trained = true)
    (hidx : db.index = some idx) (hne : embs ≠ [])
    (hgood : ∀ e ∈ embs, e.embedding.length = idx.d) :
    db.upsert_embeddings embs =
      ({ db with
          metadata := upsertMeta db embs,
          index := some { idx with
            vectors := idx.vectors ++ embs.map (·.embedding) } },
       true) := by
  obtain ⟨e0, rest, rfl⟩ : ∃ h t, embs = h :: t := by
    cases embs with
    | nil => exact absurd rfl hne
    | cons h t => exact ⟨h, t, rfl⟩
  unfold LocalVectorDB.upsert_embeddings upsertMeta
  simp only [htr, Bool.not_true, Bool.false_and, List.isEmpty_cons, if_neg,
    Bool.false_eq_true, not_false_iff, if_false]
  have hsame : sameEmbeddingLengths (e0 :: rest) = true :=
    sameEmbeddingLengths_of_all_eq _ idx.d hgood
  simp only [hsame, Bool.not_true, Bool.false_eq_true, if_false, hidx]
  have hall : (e0 :: rest).all (fun e => decide (e.embedding.length = idx.d)) = true := by
    simp only [List.all_eq_true, decide_eq_true_eq]
    exact hgood
  simp [hall]

/-! ## C2 -/

/-- C2 counterexample.  The claim asserts that `create_index` with a matching
dimension leaves the stored vectors unchanged and that `create_index` with a
mismatching dimension fails.  On the local backend both parts are false:
starting from `dbA` (dimension 2, one stored vector), `create_index 2`
succeeds but replaces the index with an empty one (the stored vector is
discarded), and `create_index 3` also reports success instead of a
dimension-mismatch error. -/
theorem C2_counterexample :
    (dbA.create_index 2).2 = true ∧
    (dbA.create_index 2).1.index ≠ dbA.index ∧
    (dbA.create_index 3).2 = true := by
  decide

/-- C2, amended.  `create_index` on the local backend is not idempotent and
performs no dimension check: for every prior state and requested dimension
it returns success and replaces the in-memory index by a fresh empty index
of the requested dimension, discarding all stored vectors; only the
id-to-metadata mapping is left unchanged. -/
theorem C2_create_index_always_resets :
    ∀ (db : LocalVectorDB) (d : Nat),
      (db.create_index d).2 = true ∧
      (db.create_index d).1.index = some { d := d, vectors := [] } ∧
      (db.create_index d).1.dimension = some d ∧
      (db.create_index d).1.is_trained = true ∧
      (db.create_index d).1.metadata = db.metadata := by
  intro db d
  exact ⟨rfl, rfl, rfl, rfl, rfl⟩

/-! ## C3 -/

/-- C3 counterexample.  The claim asserts that a dimension-mismatched upsert
leaves the store exactly as it was.  Upserting the 3-dimensional record `e3`
into the 2-dimensional store `dbA` returns failure, but the id-to-metadata
mapping has already gained the key of the rejected record. -/
theorem C3_counterexample :
    (dbA.upsert_embeddings [e3]).2 = false ∧
    (dbA.upsert_embeddings [e3]).1.metadata ≠ dbA.metadata := by
  decide

/-- C3, amended.  On a trained store, an upsert batch containing a record
whose vector dimension differs from the index dimension fails and leaves the
vector structure unchanged, but it is not atomic: the id-to-metadata mapping
has already absorbed every record of the batch (the source mutates the
metadata dict for the whole batch before the failing FAISS call). -/
theorem C3_upsert_mismatch_not_atomic :
    ∀ (db : LocalVectorDB) (idx : FaissIndexFlatIP)
      (embs : List EmbeddingResult),
      db.is_trained = true → db.index = some idx → embs ≠ [] →
      (∃ e ∈ embs, e.embedding.length ≠ idx.d) →
      (db.upsert_embeddings embs).2 = false ∧
      (db.upsert_embeddings embs).1.index = db.index ∧
      (db.upsert_embeddings embs).1.metadata = upsertMeta db embs := by
  intro db idx embs htr hidx hne hbad
  rw [upsert_embeddings_mismatch db idx embs htr hidx hne hbad]
  exact ⟨rfl, rfl, rfl⟩

/-- Witness for the amended C3 theorem at the concrete store `dbA` and the
mismatched record `e3`. -/
theorem C3_witness :
    (dbA.upsert_embeddings [e3]).2 = false ∧
    (dbA.upsert_embeddings [e3]).1.index = dbA.index ∧
    (dbA.upsert_embeddings [e3]).1.metadata = upsertMeta dbA [e3] :=
  C3_upsert_mismatch_not_atomic dbA { d := 2, vectors := [[1, 0]] } [e3]
    rfl rfl (by decide) (by decide)

/-! ## C5 -/

/-- C5 counterexample.  The claim asserts that whenever any exception occurs
during the selected search path, the response carries an error note in its
metadata.  With `badApi` the embedding collaborator raises during the vector
path, yet `search` returns the normal info metadata without any error note
(the helper `_vector_search` swallows the exception and returns an empty
list). -/
theorem C5_counterexample :
    (badApi.search qVector).results = [] ∧
    (badApi.search qVector).total_results = 0 ∧
    (badApi.search qVector).metadata = RespMeta.info "claims-embeddings" "m" := by
  exact ⟨rfl, rfl, rfl⟩

/-- C5, amended.  `search` never raises and always returns a response whose
`total_results` equals the number of returned results.  An exception
reaching the body of `search` itself — in particular an unsupported
`search_type` — yields empty results, `total_results = 0`, and an error note
in the metadata.  But an exception inside the selected search helper (for
example a failing embedding call on the vector path) is caught inside the
helper: the response then has empty results and the normal, error-free
metadata, so no error note is surfaced for such failures. -/
theorem C5_search_failure_semantics :
    ∀ (api : ClaimsSearchAPI) (q : SearchQuery),
      ((api.search q).total_results = (api.search q).results.length) ∧
      (q.search_type ≠ "vector" → q.search_type ≠ "keyword" →
        q.search_type ≠ "hybrid" →
        (api.search q).results = [] ∧ (api.search q).total_results = 0 ∧
        (api.search q).metadata =
          RespMeta.err ("Unsupported search type: " ++ q.search_type)) ∧
      (∀ msg, q.search_type = "vector" →
        api.embedQuery q.query_text = .error msg →
        (api.search q).results = [] ∧
        (api.search q).metadata = RespMeta.info api.index_name api.model_name) := by
  intro api q
  refine ⟨?_, ?_, ?_⟩
  · unfold ClaimsSearchAPI.search
    cases h : search_dispatch api q with
    | error e => rfl
    | ok results => rfl
  · intro h1 h2 h3
    have hd : search_dispatch api q =
        .error ("Unsupported search type: " ++ q.search_type) := by
      unfold search_dispatch
      rw [if_neg h1, if_neg h2, if_neg h3]
    unfold ClaimsSearchAPI.search
    rw [hd]
    exact ⟨rfl, rfl, rfl⟩
  · intro msg h1 herr
    have hv : api.vector_search q = [] := by
      unfold ClaimsSearchAPI.vector_search
      rw [herr]
    have hd : search_dispatch api q = .ok [] := by
      unfold search_dispatch
      rw [if_pos h1, hv]
    unfold ClaimsSearchAPI.search
    rw [hd]
    constructor
    · show (List.take q.top_k _) = []
      simp [apply_filters]
    · rfl

/-- Witness for the amended C5 theorem: the unsupported-type conjunct at
`qBogus` and the swallowed-exception conjunct at `badApi`/`qVector`. -/
theorem C5_witness :
    ((badApi.search qBogus).results = [] ∧
     (badApi.search qBogus).total_results = 0 ∧
     (badApi.search qBogus).metadata =
       RespMeta.err ("Unsupported search type: " ++ qBogus.search_type)) ∧
    ((badApi.search qVector).results = [] ∧
     (badApi.search qVector).metadata =
       RespMeta.info badApi.index_name badApi.model_name) :=
  ⟨(C5_search_failure_semantics badApi qBogus).2.1
      (by decide) (by decide) (by decide),
   (C5_search_failure_semantics badApi qVector).2.2 "model failure" rfl rfl⟩

/-! ## C6 -/

/-- C6.  The API-level results list is truncated to `top_k` only after the
score and metadata filtering, so its length never exceeds `top_k` and every
returned result passes both the `min_score` threshold and the metadata
filters; and a store-level search on the local backend never returns more
results than the index holds vectors. -/
theorem C6_top_k_bound :
    (∀ (api : ClaimsSearchAPI) (q : SearchQuery),
      (api.search q).results.length ≤ q.top_k ∧
      ∀ r ∈ (api.search q).results,
        q.min_score ≤ r.score ∧ passesFilters r q.filters = true) ∧
    (∀ (db : LocalVectorDB) (qe : List ℚ) (k : Nat),
      (db.search qe k).length ≤ db.ntotal) := by
  constructor
  · intro api q
    unfold ClaimsSearchAPI.search
    cases h : search_dispatch api q with
    | error e =>
        refine ⟨Nat.zero_le _, ?_⟩
        intro r hr
        simp at hr
    | ok results =>
        constructor
        · rw [List.length_take]
          exact min_le_left _ _
        · intro r hr
          have hr2 := List.mem_of_mem_take hr
          by_cases hf : q.filters.isEmpty
          · rw [if_pos hf] at hr2
            have hm := List.mem_filter.mp hr2
            refine ⟨by simpa using hm.2, ?_⟩
            rw [List.isEmpty_iff.mp hf]
            rfl
          · rw [if_neg hf] at hr2
            unfold apply_filters at hr2
            have hm := List.mem_filter.mp hr2
            have hm2 := List.mem_filter.mp hm.1
            exact ⟨by simpa using hm2.2, hm.2⟩
  · intro db qe k
    cases htr : db.is_trained with
    | false => simp [LocalVectorDB.search, htr]
    | true =>
        unfold LocalVectorDB.search
        rw [htr]
        cases hidx : db.index with
        | none => simp
        | some idx =>
            simp only [Bool.not_true, Bool.false_eq_true, if_false]
            unfold LocalVectorDB.ntotal
            rw [hidx]
            by_cases hdim : qe.length ≠ idx.d
            · rw [if_pos hdim]
              exact Nat.zero_le _
            · rw [if_neg hdim]
              calc (List.filterMap _ (faissSearchIP idx qe (min k idx.vectors.length))).length
                  ≤ (faissSearchIP idx qe (min k idx.vectors.length)).length :=
                    List.length_filterMap_le _ _
                _ ≤ idx.vectors.length := by
                    unfold faissSearchIP
                    rw [List.length_take, List.length_insertionSort,
                      List.length_map, List.enum_length]
                    omega

/-- Witness for C6 at a concrete API whose store returns three results: the
filtered, truncated response length obeys `top_k`, the surviving member
passes the score threshold and the state filter, and a store-level search on
`S2` obeys the vector-count bound. -/
theorem C6_witness :
    ((okApi.search qFiltered).results.length ≤ qFiltered.top_k) ∧
    (qFiltered.min_score ≤ okRes1.score ∧
      passesFilters okRes1 qFiltered.filters = true) ∧
    ((S2.search [0, 1] 3).length ≤ S2.ntotal) :=
  ⟨(C6_top_k_bound.1 okApi qFiltered).1,
   (C6_top_k_bound.1 okApi qFiltered).2 okRes1
     (by rw [show (okApi.search qFiltered).results = [okRes1] by
              norm_num [ClaimsSearchAPI.search, search_dispatch, qFiltered,
                okApi, ClaimsSearchAPI.vector_search, okResults, apply_filters,
                passesFilters, dictGet, okRes1, okRes2, okRes3, List.find?,
                List.filter,
                decide_eq_false (show ¬ (("NY":String) = "CA") from by decide)]]
         exact List.mem_cons_self _ _),
   C6_top_k_bound.2 S2 [0, 1] 3⟩

/-! ## C7 -/

/-- C7.  Filter correctness of `_apply_filters`: every surviving result
either lacks the filter key in its metadata or its metadata value matches
(equality, or membership when the filter value is a list); a result whose
present metadata values all match is never excluded (in particular a filter
key absent from the metadata never excludes); and the surviving results keep
their original order (the output is a sublist of the input). -/
theorem C7_apply_filters_correct :
    ∀ (results : List SearchResult) (filters : List (String × FilterVal)),
      (∀ r ∈ apply_filters results filters, ∀ kv ∈ filters,
        dictGet r.metadata kv.1 = none ∨
        ∃ v, dictGet r.metadata kv.1 = some v ∧ filterMatches kv.2 v) ∧
      (∀ r ∈ results,
        (∀ kv ∈ filters, ∀ v, dictGet r.metadata kv.1 = some v →
          filterMatches kv.2 v) →
        r ∈ apply_filters results filters) ∧
      (apply_filters results filters).Sublist results := by
  intro results filters
  refine ⟨?_, ?_, List.filter_sublist _⟩
  · intro r hr kv hkv
    have hp := (List.mem_filter.mp hr).2
    unfold passesFilters at hp
    rw [List.all_eq_true] at hp
    have hkv2 := hp kv hkv
    cases hg : dictGet r.metadata kv.1 with
    | none => exact Or.inl rfl
    | some v =>
        refine Or.inr ⟨v, rfl, ?_⟩
        rw [hg] at hkv2
        cases hv : kv.2 with
        | flist vs =>
            rw [hv] at hkv2
            simpa [filterMatches] using hkv2
        | fval fv =>
            rw [hv] at hkv2
            simpa [filterMatches] using hkv2
  · intro r hr hmatch
    refine List.mem_filter.mpr ⟨hr, ?_⟩
    unfold passesFilters
    rw [List.all_eq_true]
    intro kv hkv
    cases hg : dictGet r.metadata kv.1 with
    | none => rfl
    | some v =>
        have hmv := hmatch kv hkv v hg
        cases hv : kv.2 with
        | flist vs =>
            rw [hv] at hmv
            simpa [filterMatches] using hmv
        | fval fv =>
            rw [hv] at hmv
            simpa [filterMatches] using hmv

/-- Witness for C7 on a concrete result list and filter map: the result whose
metadata matches the filter survives, the result lacking the filter key
survives, and the output keeps the original order. -/
theorem C7_witness :
    (okRes1 ∈ apply_filters okResults stateFilter) ∧
    (okRes3 ∈ apply_filters okResults stateFilter) ∧
    (apply_filters okResults stateFilter).Sublist okResults :=
  ⟨(C7_apply_filters_correct okResults stateFilter).2.1 okRes1
      (by simp [okResults])
      (by intro kv hkv v hg
          simp only [stateFilter, List.mem_singleton] at hkv
          subst hkv
          rw [show dictGet okRes1.metadata "state" =
            some (MetaVal.vstr "CA") from rfl] at hg
          cases hg
          exact rfl),
   (C7_apply_filters_correct okResults stateFilter).2.1 okRes3
      (by simp [okResults])
      (by intro kv hkv v hg
          simp only [stateFilter, List.mem_singleton] at hkv
          subst hkv
          rw [show dictGet okRes3.metadata "state" = none from rfl] at hg
          cases hg),
   (C7_apply_filters_correct okResults stateFilter).2.2⟩

/-! ## Chunker loop lemmas -/

theorem lt_chunk_end_pos (text : List Char) (bps : List Nat) (cs start : Nat)
    (h : start < text.length) (hcs : 1 ≤ cs) :
    start < chunk_end_pos text bps cs start := by
  unfold chunk_end_pos
  dsimp only
  split
  · assumption
  · omega

theorem create_chunks_aux_complete (text : List Char) (bps : List Nat)
    (cs co ms : Nat) (src : String) (fm : List (String × MetaVal))
    (hcs : 1 ≤ cs) :
    ∀ (fuel start idx : Nat), text.length - start < fuel →
      (create_chunks_aux text bps cs co ms src fm fuel start idx).2.2 = true := by
  intro fuel
  induction fuel with
  | zero => intro start idx h; exact absurd h (Nat.not_lt_zero _)
  | succ f ih =>
      intro start idx h
      by_cases hlt : start < text.length
      · have hep := lt_chunk_end_pos text bps cs start hlt hcs
        simp only [create_chunks_aux, if_pos hlt]
        split
        · dsimp only
          exact ih _ idx (by omega)
        · dsimp only
          exact ih _ (idx + 1) (by omega)
      · simp only [create_chunks_aux, if_neg hlt]

theorem create_chunks_aux_indices (text : List Char) (bps : List Nat)
    (cs co ms : Nat) (src : String) (fm : List (String × MetaVal)) :
    ∀ (fuel start idx : Nat),
      ((create_chunks_aux text bps cs co ms src fm fuel start idx).1.map
          (·.chunk_index)
        = List.range' idx
            (create_chunks_aux text bps cs co ms src fm fuel start idx).1.length) ∧
      (∀ c ∈ (create_chunks_aux text bps cs co ms src fm fuel start idx).1,
        c.chunk_id = mkChunkId src c.chunk_index) := by
  intro fuel
  induction fuel with
  | zero =>
      intro start idx
      exact ⟨rfl, fun c hc => absurd hc (List.not_mem_nil c)⟩
  | succ f ih =>
      intro start idx
      by_cases hlt : start < text.length
      · simp only [create_chunks_aux, if_pos hlt]
        split
        · dsimp only
          exact ih _ idx
        · dsimp only
          constructor
          · rw [List.map_cons, (ih _ (idx + 1)).1, List.length_cons,
              List.range'_succ]
          · intro c hc
            rcases List.mem_cons.mp hc with rfl | hmem
            · rfl
            · exact (ih _ (idx + 1)).2 c hmem
      · simp only [create_chunks_aux, if_neg hlt]
        exact ⟨rfl, fun c hc => absurd hc (List.not_mem_nil c)⟩

theorem create_chunks_aux_covers (text : List Char) (bps : List Nat)
    (cs co ms : Nat) (src : String) (fm : List (String × MetaVal))
    (hcs : 1 ≤ cs) :
    ∀ (fuel start idx : Nat), text.length - start < fuel →
      ∀ p, start ≤ p → p < text.length →
        (∃ c ∈ (create_chunks_aux text bps cs co ms src fm fuel start idx).1,
          c.start_char ≤ p ∧ p < c.end_char) ∨
        (∃ se ∈ (create_chunks_aux text bps cs co ms src fm fuel start idx).2.1,
          se.1 ≤ p ∧ p < se.2) := by
  intro fuel
  induction fuel with
  | zero => intro start idx h; exact absurd h (Nat.not_lt_zero _)
  | succ f ih =>
      intro start idx h p hp1 hp2
      have hlt : start < text.length := Nat.lt_of_le_of_lt hp1 hp2
      have hep := lt_chunk_end_pos text bps cs start hlt hcs
      simp only [create_chunks_aux, if_pos hlt]
      split
      · dsimp only
        by_cases hpe : p < chunk_end_pos text bps cs start
        · exact Or.inr ⟨(start, chunk_end_pos text bps cs start),
            List.mem_cons_self _ _, hp1, hpe⟩
        · rcases ih (chunk_end_pos text bps cs start) idx (by omega) p
            (by omega) hp2 with ⟨c, hc, hcp⟩ | ⟨se, hse, hsp⟩
          · exact Or.inl ⟨c, hc, hcp⟩
          · exact Or.inr ⟨se, List.mem_cons_of_mem _ hse, hsp⟩
      · dsimp only
        by_cases hpe : p < chunk_end_pos text bps cs start
        · exact Or.inl ⟨_, List.mem_cons_self _ _, hp1, hpe⟩
        · rcases ih (max (start + 1) (chunk_end_pos text bps cs start - co))
            (idx + 1) (by omega) p (by omega) hp2 with
            ⟨c, hc, hcp⟩ | ⟨se, hse, hsp⟩
          · exact Or.inl ⟨c, List.mem_cons_of_mem _ hc, hcp⟩
          · exact Or.inr ⟨se, hse, hsp⟩

theorem create_chunks_aux_skipped_small (text : List Char) (bps : List Nat)
    (cs co ms : Nat) (src : String) (fm : List (String × MetaVal)) :
    ∀ (fuel start idx : Nat),
      ∀ se ∈ (create_chunks_aux text bps cs co ms src fm fuel start idx).2.1,
        (pyStrip (sliceChars text se.1 se.2)).length < ms := by
  intro fuel
  induction fuel with
  | zero => intro start idx se hse; exact absurd hse (List.not_mem_nil se)
  | succ f ih =>
      intro start idx se hse
      by_cases hlt : start < text.length
      · simp only [create_chunks_aux, if_pos hlt] at hse
        by_cases hsm : (pyStrip (sliceChars text start
            (chunk_end_pos text bps cs start))).length < ms
        · rw [if_pos hsm] at hse
          dsimp only at hse
          rcases List.mem_cons.mp hse with rfl | hmem
          · exact hsm
          · exact ih _ idx se hmem
        · rw [if_neg hsm] at hse
          dsimp only at hse
          exact ih _ (idx + 1) se hse
      · simp only [create_chunks_aux, if_neg hlt] at hse
        exact absurd hse (List.not_mem_nil se)

/-! ## C9 -/

/-- C9.  The chunking loop terminates whenever `chunk_size ≥ 1` (with any
overlap and minimum size): the completion flag of the fuelled model is true
with `len(text) + 1` fuel, because the window end is strictly beyond the
current start, so the next start position — `end_pos` on the skip path and
`max(start+1, end_pos - overlap)` on the emit path — strictly increases
until `start ≥ len(text)`. -/
theorem C9_chunking_terminates :
    ∀ (text : List Char) (bps : List Nat) (cs co ms : Nat) (src : String)
      (fm : List (String × MetaVal)), 1 ≤ cs →
      ((create_chunks_impl text bps cs co ms src fm).2.2 = true ∧
       ∀ start, start < text.length →
         start < chunk_end_pos text bps cs start ∧
         start < max (start + 1) (chunk_end_pos text bps cs start - co)) := by
  intro text bps cs co ms src fm hcs
  constructor
  · exact create_chunks_aux_complete text bps cs co ms src fm hcs
      (text.length + 1) 0 0 (by omega)
  · intro start h
    exact ⟨lt_chunk_end_pos text bps cs start h hcs, by omega⟩

/-- Witness for C9 at a concrete seven-character text. -/
theorem C9_witness :
    (create_chunks_impl ['a', 'b', 'c', 'd', 'e', 'f', 'g'] [0, 7] 5 0 3
      "f.txt" []).2.2 = true :=
  (C9_chunking_terminates ['a', 'b', 'c', 'd', 'e', 'f', 'g'] [0, 7] 5 0 3
    "f.txt" [] (by decide)).1

/-! ## C8 -/

/-- C8.  For every input and source file (with a positive chunk size, so the
loop terminates), the chunk indices of `chunk_text` are exactly
`0, 1, 2, …` in emission order, with no gaps and no repeats, and every
chunk id is derived from the source-file stem and that index via
f"{stem}_chunk_{index:03d}". -/
theorem C8_chunk_indices :
    ∀ (cs co ms : Nat) (text : List Char) (src : String)
      (fm : List (String × MetaVal)), 1 ≤ cs →
      ((chunk_text cs co ms text src fm).map (·.chunk_index)
        = List.range (chunk_text cs co ms text src fm).length) ∧
      (∀ c ∈ chunk_text cs co ms text src fm,
        c.chunk_id = mkChunkId src c.chunk_index) := by
  intro cs co ms text src fm _hcs
  unfold chunk_text
  split
  · exact ⟨rfl, fun c hc => absurd hc (List.not_mem_nil c)⟩
  · unfold create_chunks create_chunks_impl
    rw [List.range_eq_range']
    exact create_chunks_aux_indices _ _ cs co ms src fm _ 0 0

/-- Witness for C8 at a concrete seven-character text (one emitted chunk,
index 0, id derived from the stem of f.txt). -/
theorem C8_witness :
    (chunk_text 5 0 3 ['a', 'b', 'c', 'd', 'e', 'f', 'g'] "f.txt" []).map
        (·.chunk_index)
      = List.range
          (chunk_text 5 0 3 ['a', 'b', 'c', 'd', 'e', 'f', 'g'] "f.txt" []).length :=
  (C8_chunk_indices 5 0 3 ['a', 'b', 'c', 'd', 'e', 'f', 'g'] "f.txt" []
    (by decide)).1

/-! ## C1 -/

/-- C1 counterexample.  The claim asserts that the chunk ranges cover the
whole cleaned text for every accepted input.  The seven-character input
below is accepted (stripped length 7 ≥ min_chunk_size 3) and cleans to
itself, but with chunk_size 5 and overlap 0 the loop emits the single chunk
`[0, 5)` and then skips the final window `[5, 7)` because its content is
shorter than min_chunk_size: positions 5 and 6 of the cleaned text are
covered by no emitted chunk. -/
theorem C1_counterexample :
    3 ≤ (pyStrip ['a', 'b', 'c', 'd', 'e', 'f', 'g']).length ∧
    5 < (clean_text ['a', 'b', 'c', 'd', 'e', 'f', 'g']).length ∧
    ∀ c ∈ chunk_text 5 0 3 ['a', 'b', 'c', 'd', 'e', 'f', 'g'] "f.txt" [],
      ¬ (c.start_char ≤ 5 ∧ 5 < c.end_char) := by
  decide

/-- C1, amended.  With `chunk_size ≥ 1`, every position of the text handed
to `_create_chunks` lies either in an emitted chunk's `[start_char,
end_char)` range or in one of the windows the loop skipped; each skipped
window's stripped content is shorter than `min_chunk_size`.  Full coverage
by the emitted chunks alone fails: skipped windows — in particular a short
tail after the last emitted chunk — are silently dropped and their
positions are not covered.  (`chunk_text` applies this loop to the cleaned
text, so the same statement holds there.) -/
theorem C1_coverage_up_to_skips :
    ∀ (text : List Char) (bps : List Nat) (cs co ms : Nat) (src : String)
      (fm : List (String × MetaVal)), 1 ≤ cs →
      (∀ p, p < text.length →
        (∃ c ∈ (create_chunks_impl text bps cs co ms src fm).1,
          c.start_char ≤ p ∧ p < c.end_char) ∨
        (∃ se ∈ (create_chunks_impl text bps cs co ms src fm).2.1,
          se.1 ≤ p ∧ p < se.2)) ∧
      (∀ se ∈ (create_chunks_impl text bps cs co ms src fm).2.1,
        (pyStrip (sliceChars text se.1 se.2)).length < ms) := by
  intro text bps cs co ms src fm hcs
  constructor
  · intro p hp
    exact create_chunks_aux_covers text bps cs co ms src fm hcs
      (text.length + 1) 0 0 (by omega) p (Nat.zero_le p) hp
  · exact create_chunks_aux_skipped_small text bps cs co ms src fm
      (text.length + 1) 0 0

/-- Witness for the amended C1 theorem on the seven-character example:
position 3 is covered by an emitted chunk or skipped window, and every
skipped window is short. -/
theorem C1_witness :
    ((∃ c ∈ (create_chunks_impl ['a', 'b', 'c', 'd', 'e', 'f', 'g'] [0, 7]
        5 0 3 "f.txt" []).1, c.start_char ≤ 3 ∧ 3 < c.end_char) ∨
     (∃ se ∈ (create_chunks_impl ['a', 'b', 'c', 'd', 'e', 'f', 'g'] [0, 7]
        5 0 3 "f.txt" []).2.1, se.1 ≤ 3 ∧ 3 < se.2)) :=
  (C1_coverage_up_to_skips ['a', 'b', 'c', 'd', 'e', 'f', 'g'] [0, 7] 5 0 3
    "f.txt" [] (by decide)).1 3 (by decide)

/-! ## C10 -/

/-- C10.  The local backend resolves a FAISS position to a chunk id by
indexing the list of metadata keys, and `upsert_embeddings` with a chunk id
already present appends a vector without adding a metadata key, so the
position-to-key alignment breaks.  General part: for every aligned trained
store and every batch of matching dimension containing an already-present
chunk id, the upsert appends all batch vectors but ends with strictly fewer
metadata keys than vectors.  Concrete part: after upserting a, then a again
with vector `[0,1]`, then b with vector `[1,0]`, a search for `[0,1]` with
`top_k = 3` silently drops a FAISS position (2 results despite
`min(top_k, ntotal) = 3`) and its top result carries chunk id b and the
metadata of b although the matching stored vector `[0,1]` at position 1 was
upserted under chunk id a (b's vector is `[1,0]`); the score-0 result
labelled a carries the metadata of the second a-record. -/
theorem C10_duplicate_upsert_misaligns :
    (∀ (db : LocalVectorDB) (idx : FaissIndexFlatIP)
       (embs : List EmbeddingResult),
      db.is_trained = true → db.index = some idx →
      db.metadata.length = idx.vectors.length →
      embs ≠ [] →
      (∀ e ∈ embs, e.embedding.length = idx.d) →
      (∃ e ∈ embs, db.metadata.any
        (fun kv => decide (kv.1 = e.chunk_id)) = true) →
      (db.upsert_embeddings embs).1.ntotal = db.ntotal + embs.length ∧
      (db.upsert_embeddings embs).1.metadata.length <
        (db.upsert_embeddings embs).1.ntotal) ∧
    ((S1.ntotal = 2 ∧ S1.metadata.length = 1) ∧
     (S2.search [0, 1] 3).map (fun r => (r.chunk_id, r.score, r.content)) =
       [("b", 1, "b"), ("a", 0, "second a")] ∧
     (S2.search [0, 1] 3).length < min 3 S2.ntotal ∧
     S2.index = some ⟨2, [[1, 0], [0, 1], [1, 0]]⟩ ∧
     recA2.embedding = [0, 1] ∧ recB.embedding = [1, 0]) := by
  constructor
  · intro db idx embs htr hidx hlen hne hdims hdup
    rw [upsert_embeddings_success db idx embs htr hidx hne hdims]
    constructor
    · simp [LocalVectorDB.ntotal, hidx]
    · have h1 : (upsertMeta db embs).length < db.metadata.length + embs.length := by
        unfold upsertMeta
        exact length_foldl_dictInsert_lt _ embs db.metadata hdup
      simp only [LocalVectorDB.ntotal, List.length_append, List.length_map]
      omega
  · have hsearch : (S2.search [0, 1] 3).map
        (fun r => (r.chunk_id, r.score, r.content)) =
        [("b", 1, "b"), ("a", 0, "second a")] := by
      rw [show S2 = S2lit from by decide]
      norm_num [LocalVectorDB.search, S2lit, faissSearchIP, dotIP,
        List.insertionSort, List.orderedInsert, faissRel,
        List.enum, List.enumFrom, List.filterMap, dictGet, List.find?,
        storedMetaOf, dictInsert, recA2, recB]
      decide
    refine ⟨⟨by decide, by decide⟩, hsearch, ?_, by decide, by decide, by decide⟩
    have hl : (S2.search [0, 1] 3).length = 2 := by
      have h2 := congrArg List.length hsearch
      simpa using h2
    have hm : min 3 S2.ntotal = 3 := by decide
    omega

/-- Witness for the general part of C10 at the duplicate upsert of `recA2`
into `S0`. -/
theorem C10_witness :
    (S0.upsert_embeddings [recA2]).1.ntotal = S0.ntotal + [recA2].length ∧
    (S0.upsert_embeddings [recA2]).1.metadata.length <
      (S0.upsert_embeddings [recA2]).1.ntotal :=
  C10_duplicate_upsert_misaligns.1 S0 ⟨2, [[1, 0]]⟩ [recA2]
    (by decide) (by decide) (by decide) (by decide) (by decide) (by decide)

/-! ## Lemmas about the hybrid-merge data -/

theorem ventry_result (kr : List SearchResult) (r : SearchResult) :
    (ventry kr r).result = r := by
  unfold ventry
  cases kr.find? (fun k => decide (k.chunk_id = r.chunk_id)) <;> rfl

theorem ventry_combined (kr : List SearchResult) (r : SearchResult) :
    (ventry kr r).combined_score = hybridScore kr r := by
  unfold ventry hybridScore scoreOf
  cases kr.find? (fun k => decide (k.chunk_id = r.chunk_id))
  all_goals dsimp only
  all_goals try ring

theorem find?_cid_eq_self_of_nodup :
    ∀ (rs : List SearchResult), (rs.map (·.chunk_id)).Nodup →
      ∀ r ∈ rs, rs.find? (fun x => decide (x.chunk_id = r.chunk_id)) = some r := by
  intro rs
  induction rs with
  | nil => intro _ r hr; exact absurd hr (List.not_mem_nil r)
  | cons v rest ih =>
      intro hnd r hr
      rw [List.map_cons, List.nodup_cons] at hnd
      by_cases hc : v.chunk_id = r.chunk_id
      · have hrv : r = v := by
          rcases List.mem_cons.mp hr with rfl | hmem
          · rfl
          · exact absurd (hc ▸ List.mem_map_of_mem (·.chunk_id) hmem) hnd.1
        subst hrv
        simp [List.find?_cons, hc]
      · have hmem : r ∈ rest := by
          rcases List.mem_cons.mp hr with rfl | hmem
          · exact absurd rfl hc
          · exact hmem
        rw [List.find?_cons_of_neg _ (by simpa using hc)]
        exact ih hnd.2 r hmem

theorem dictGet_map_keyed {α : Type} (f : SearchResult → α)
    (rs : List SearchResult) (c : String) :
    dictGet (rs.map (fun r => (r.chunk_id, f r))) c =
      (rs.find? (fun r => decide (r.chunk_id = c))).map f := by
  induction rs with
  | nil => rfl
  | cons v rest ih =>
      by_cases hc : v.chunk_id = c
      · simp [dictGet, List.find?_cons, hc]
      · rw [List.map_cons, List.find?_cons_of_neg _ (by simpa using hc)]
        unfold dictGet at ih ⊢
        rw [List.find?_cons_of_neg _ (by simpa using hc)]
        exact ih

theorem dictGet_append {α : Type} (A B : List (String × α)) (c : String) :
    dictGet (A ++ B) c = ((dictGet A c).map some).getD (dictGet B c) := by
  unfold dictGet
  rw [List.find?_append]
  cases A.find? (fun kv => decide (kv.1 = c)) <;> rfl

theorem dictGet_eq_none_of_no_key {α : Type} (A : List (String × α)) (c : String)
    (h : ∀ p ∈ A, p.1 ≠ c) : dictGet A c = none := by
  unfold dictGet
  rw [List.find?_eq_none.mpr (by intro p hp; simpa using h p hp)]
  rfl

theorem kwOnly_append (vr a b : List SearchResult) :
    kwOnly vr (a ++ b) = kwOnly vr a ++ kwOnly vr b := by
  unfold kwOnly
  exact List.filter_append _ _

theorem kwOnly_singleton_of_present (vr : List SearchResult) (k : SearchResult)
    (h : ∃ v ∈ vr, v.chunk_id = k.chunk_id) : kwOnly vr [k] = [] := by
  unfold kwOnly
  obtain ⟨v, hv, hc⟩ := h
  have : (vr.all (fun v => !decide (v.chunk_id = k.chunk_id))) = false := by
    simp only [List.all_eq_false]
    exact ⟨v, hv, by simp [hc]⟩
  simp [List.filter, this]

theorem kwOnly_singleton_of_absent (vr : List SearchResult) (k : SearchResult)
    (h : ∀ v ∈ vr, v.chunk_id ≠ k.chunk_id) : kwOnly vr [k] = [k] := by
  unfold kwOnly
  have : (vr.all (fun v => !decide (v.chunk_id = k.chunk_id))) = true := by
    simp only [List.all_eq_true]
    intro v hv
    simp [h v hv]
  simp [List.filter, this]

theorem kwOnly_mem_done (vr done : List SearchResult) (p : SearchResult)
    (h : p ∈ kwOnly vr done) : p ∈ done :=
  List.mem_of_mem_filter h

theorem any_keyed_map {α : Type} (f : SearchResult → α)
    (rs : List SearchResult) (c : String) :
    (rs.map (fun r => (r.chunk_id, f r))).any (fun kv => decide (kv.1 = c)) =
      rs.any (fun r => decide (r.chunk_id = c)) := by
  induction rs with
  | nil => rfl
  | cons v rest ih => simp only [List.map_cons, List.any_cons, ih]

theorem dictInsert_append_left {α : Type} (A B : List (String × α))
    (k : String) (v : α)
    (hA : A.any (fun kv => decide (kv.1 = k)) = true)
    (hB : ∀ p ∈ B, p.1 ≠ k) :
    dictInsert (A ++ B) k v = dictInsert A k v ++ B := by
  have hAB : ((A ++ B).any fun kv => decide (kv.1 = k)) = true := by
    rw [List.any_append, hA]
    exact Bool.true_or _
  unfold dictInsert
  rw [if_pos hAB, if_pos hA, List.map_append]
  congr 1
  calc List.map (fun kv => if kv.1 = k then (k, v) else kv) B
      = List.map (fun kv => kv) B :=
        List.map_congr_left (fun p hp => by rw [if_neg (hB p hp)])
    _ = B := List.map_id' B

theorem dictInsert_map_keyed {α : Type} (f : SearchResult → α)
    (rs : List SearchResult) (c : String) (v : α)
    (hc : rs.any (fun r => decide (r.chunk_id = c)) = true) :
    dictInsert (rs.map (fun r => (r.chunk_id, f r))) c v =
      rs.map (fun r => if r.chunk_id = c then (c, v) else (r.chunk_id, f r)) := by
  unfold dictInsert
  have hany : (rs.map (fun r => (r.chunk_id, f r))).any
      (fun kv => decide (kv.1 = c)) = true := by
    rw [any_keyed_map]
    exact hc
  rw [if_pos hany, List.map_map]
  apply List.map_congr_left
  intro r _
  by_cases h : r.chunk_id = c <;> simp [Function.comp, h]

/-- The vector pass of `_combine_search_results` appends one fresh entry per
vector result. -/
theorem vector_fold_eq :
    ∀ (vr : List SearchResult) (acc : List (String × CombEntry)),
      (vr.map (·.chunk_id)).Nodup →
      (∀ r ∈ vr, acc.any (fun kv => decide (kv.1 = r.chunk_id)) = false) →
      vr.foldl (fun m r => dictInsert m r.chunk_id
        { result := r, vector_score := r.score, keyword_score := 0,
          combined_score := r.score * (7/10) }) acc
      = acc ++ vr.map (fun r => (r.chunk_id, ventry [] r)) := by
  intro vr
  induction vr with
  | nil => intro acc _ _; simp
  | cons r rest ih =>
      intro acc hnd hfresh
      rw [List.map_cons, List.nodup_cons] at hnd
      rw [List.foldl_cons,
        dictInsert_of_not_mem _ _ _ (hfresh r (List.mem_cons_self _ _))]
      rw [ih _ hnd.2 ?fresh]
      case fresh =>
        intro x hx
        rw [List.any_append]
        rw [hfresh x (List.mem_cons_of_mem _ hx)]
        have hne : r.chunk_id ≠ x.chunk_id := by
          intro hcon
          exact hnd.1 (hcon ▸ List.mem_map_of_mem (·.chunk_id) hx)
        simp [hne]
      simp [List.append_assoc, ventry]

/-- `ventry` ignores keyword results whose chunk id differs. -/
theorem ventry_append_single_of_ne (done : List SearchResult)
    (k r : SearchResult) (h : k.chunk_id ≠ r.chunk_id) :
    ventry (done ++ [k]) r = ventry done r := by
  unfold ventry
  rw [List.find?_append]
  rw [show [k].find? (fun x => decide (x.chunk_id = r.chunk_id)) = none by
    simp [List.find?_cons, h]]
  cases done.find? (fun x => decide (x.chunk_id = r.chunk_id)) <;> rfl

/-- One step of the keyword pass moves one keyword result from the pending
list into the `combined_results` dict. -/
theorem keyword_fold_step (vr done : List SearchResult) (k : SearchResult)
    (hv : (vr.map (·.chunk_id)).Nodup)
    (hkdone : ∀ p ∈ done, p.chunk_id ≠ k.chunk_id) :
    kstep (combMap vr done) k = combMap vr (done ++ [k]) := by
  have hBkeys : ∀ p ∈ (kwOnly vr done).map
      (fun x => (x.chunk_id, kentry x)), p.1 ≠ k.chunk_id := by
    intro p hp
    obtain ⟨x, hx, rfl⟩ := List.mem_map.mp hp
    exact hkdone x (kwOnly_mem_done vr done x hx)
  by_cases hpres : vr.any (fun v => decide (v.chunk_id = k.chunk_id)) = true
  · -- k's chunk id occurs among the vector results
    obtain ⟨v, hvmem, hvc⟩ : ∃ v ∈ vr, v.chunk_id = k.chunk_id := by
      simpa using hpres
    have hfind : vr.find? (fun x => decide (x.chunk_id = k.chunk_id)) = some v := by
      rw [← hvc]
      exact find?_cid_eq_self_of_nodup vr hv v hvmem
    have hvdone : (ventry done v) =
        { result := v, vector_score := v.score, keyword_score := 0,
          combined_score := v.score * (7/10) } := by
      unfold ventry
      rw [List.find?_eq_none.mpr (by
        intro x hx
        simpa [hvc] using hkdone x hx)]
    have hget : dictGet (combMap vr done) k.chunk_id = some (ventry done v) := by
      unfold combMap
      rw [dictGet_append, dictGet_map_keyed, hfind]
      rfl
    unfold kstep
    rw [hget]
    dsimp only
    rw [hvdone]
    dsimp only
    unfold combMap
    rw [dictInsert_append_left _ _ _ _
      (by rw [any_keyed_map]; exact hpres) hBkeys]
    rw [dictInsert_map_keyed _ _ _ _ hpres]
    rw [kwOnly_append, kwOnly_singleton_of_present vr k ⟨v, hvmem, hvc⟩,
      List.append_nil]
    congr 1
    apply List.map_congr_left
    intro r hr
    by_cases hrc : r.chunk_id = k.chunk_id
    · rw [if_pos hrc]
      have hrv : r = v := by
        have h1 := find?_cid_eq_self_of_nodup vr hv r hr
        rw [hrc, hfind] at h1
        exact (Option.some_inj.mp h1).symm
      subst hrv
      have hvk : ventry (done ++ [k]) r =
          { result := r, vector_score := r.score, keyword_score := k.score,
            combined_score := r.score * (7/10) + k.score * (3/10) } := by
        unfold ventry
        rw [List.find?_append,
          List.find?_eq_none.mpr (by
            intro x hx
            simpa [hrc] using hkdone x hx)]
        rw [show [k].find? (fun x => decide (x.chunk_id = r.chunk_id)) = some k
          from List.find?_cons_of_pos _ (by simp [hrc])]
        rfl
      rw [hvk, hrc]
    · rw [if_neg hrc,
        ventry_append_single_of_ne done k r (fun h => hrc h.symm)]
  · -- k's chunk id is new
    have habs : ∀ x ∈ vr, x.chunk_id ≠ k.chunk_id := by
      simpa using hpres
    have hget : dictGet (combMap vr done) k.chunk_id = none := by
      unfold combMap
      rw [dictGet_append, dictGet_map_keyed,
        List.find?_eq_none.mpr (by intro x hx; simpa using habs x hx)]
      exact dictGet_eq_none_of_no_key _ _ hBkeys
    unfold kstep
    rw [hget]
    dsimp only
    rw [dictInsert_of_not_mem _ _ _ (by
      unfold combMap
      rw [List.any_append]
      rw [show (vr.map (fun r => (r.chunk_id, ventry done r))).any
          (fun kv => decide (kv.1 = k.chunk_id)) = false by
        rw [any_keyed_map]
        simpa using habs]
      rw [show ((kwOnly vr done).map (fun x => (x.chunk_id, kentry x))).any
          (fun kv => decide (kv.1 = k.chunk_id)) = false by
        rw [List.any_eq_false]
        intro p hp
        simpa using hBkeys p hp]
      rfl)]
    unfold combMap
    rw [kwOnly_append, kwOnly_singleton_of_absent vr k habs]
    rw [show vr.map (fun r => (r.chunk_id, ventry (done ++ [k]) r)) =
        vr.map (fun r => (r.chunk_id, ventry done r)) from
      List.map_congr_left (fun r hr => by
        rw [ventry_append_single_of_ne done k r (fun h => habs r hr h.symm)])]
    simp [List.append_assoc, kentry]

/-- The whole keyword pass turns `combMap vr done` into
`combMap vr (done ++ kr)`. -/
theorem keyword_fold_eq (vr : List SearchResult)
    (hv : (vr.map (·.chunk_id)).Nodup) :
    ∀ (kr done : List SearchResult),
      ((done ++ kr).map (·.chunk_id)).Nodup →
      kr.foldl kstep (combMap vr done) = combMap vr (done ++ kr) := by
  intro kr
  induction kr with
  | nil => intro done _; rw [List.foldl_nil, List.append_nil]
  | cons k ks ih =>
      intro done hnd
      have hkdone : ∀ p ∈ done, p.chunk_id ≠ k.chunk_id := by
        rw [List.map_append, List.nodup_append] at hnd
        intro p hp hcon
        exact hnd.2.2 (List.mem_map_of_mem _ hp)
          (by rw [hcon, List.map_cons]; exact List.mem_cons_self _ _)
      rw [List.foldl_cons, keyword_fold_step vr done k hv hkdone]
      rw [show done ++ k :: ks = (done ++ [k]) ++ ks by simp]
      exact ih (done ++ [k]) (by simpa using hnd)

/-- Closed form of `_combine_search_results` for result lists with distinct
chunk ids: stable descending sort of the spec entry list. -/
theorem combine_characterization (vr kr : List SearchResult)
    (hv : (vr.map (·.chunk_id)).Nodup) (hk : (kr.map (·.chunk_id)).Nodup) :
    combine_search_results vr kr =
      (List.insertionSort combRel (entriesSpec vr kr)).map
        (fun e => { e.result with score := e.combined_score }) := by
  unfold combine_search_results
  dsimp only
  rw [vector_fold_eq vr [] hv (fun r _ => rfl), List.nil_append]
  have h0 : vr.map (fun r => (r.chunk_id, ventry [] r)) = combMap vr [] := by
    unfold combMap
    rw [show kwOnly vr [] = [] from rfl, List.map_nil, List.append_nil]
  rw [h0, keyword_fold_eq vr hv kr [] (by simpa using hk), List.nil_append]
  have h1 : (combMap vr kr).map (·.2) = entriesSpec vr kr := by
    unfold combMap entriesSpec
    rw [List.map_append, List.map_map, List.map_map]
    rfl
  rw [h1]

theorem f_ventry (kr : List SearchResult) (r : SearchResult) :
    ({ (ventry kr r).result with score := (ventry kr r).combined_score }
      : SearchResult) = { r with score := hybridScore kr r } := by
  rw [ventry_result, ventry_combined]

/-! ## C4 -/

/-- C4.  Hybrid merging.  The example instance: vector result A with score
0.9 merged with keyword results A (0.5) and B (0.8) yields [A, B] with
scores 0.78 and 0.24.  In general, for result lists with distinct chunk
ids: every merged result's score is `0.7 * vector_score + 0.3 *
keyword_score` (0 for an absent side); the output is sorted by descending
combined score; each chunk id of either input appears exactly once; and the
sort is stable with the `combined_results` dict holding vector results
first in vector rank order — so whenever `r1` precedes `r2` in the vector
results and `r1`'s combined score is at least `r2`'s (in particular on
ties), `r1`'s merged result still precedes `r2`'s, i.e. ties are broken by
vector-search rank. -/
theorem C4_hybrid_merge :
    ((combine_search_results [exVecA] [exKwA, exKwB]).map
        (fun r => (r.chunk_id, r.score)) = [("A", 39/50), ("B", 6/25)]) ∧
    ∀ (vr kr : List SearchResult),
      (vr.map (·.chunk_id)).Nodup → (kr.map (·.chunk_id)).Nodup →
      ((∀ r ∈ combine_search_results vr kr,
          r.score = 7/10 * scoreOf vr r.chunk_id +
            3/10 * scoreOf kr r.chunk_id) ∧
       List.Sorted (fun a b : SearchResult => b.score ≤ a.score)
         (combine_search_results vr kr) ∧
       ((combine_search_results vr kr).map (·.chunk_id)).Perm
         (vr.map (·.chunk_id) ++ (kwOnly vr kr).map (·.chunk_id)) ∧
       (∀ r1 r2, [r1, r2].Sublist vr →
         hybridScore kr r2 ≤ hybridScore kr r1 →
         [{ r1 with score := hybridScore kr r1 },
          { r2 with score := hybridScore kr r2 }].Sublist
           (combine_search_results vr kr))) := by
  constructor
  · norm_num [combine_search_results, kstep, dictInsert, dictGet, exVecA,
      exKwA, exKwB, List.insertionSort, List.orderedInsert, combRel,
      List.find?]
  · intro vr kr hv hk
    have hchar := combine_characterization vr kr hv hk
    refine ⟨?_, ?_, ?_, ?_⟩
    · intro r' hr'
      rw [hchar] at hr'
      obtain ⟨e, he, rfl⟩ := List.mem_map.mp hr'
      rw [List.mem_insertionSort] at he
      unfold entriesSpec at he
      rcases List.mem_append.mp he with hev | hek
      · obtain ⟨v, hvmem, rfl⟩ := List.mem_map.mp hev
        rw [f_ventry kr v]
        dsimp only
        unfold hybridScore
        rw [show scoreOf vr v.chunk_id = v.score by
          unfold scoreOf
          rw [find?_cid_eq_self_of_nodup vr hv v hvmem]]
        ring
      · obtain ⟨kx, hkmem, rfl⟩ := List.mem_map.mp hek
        have hkr : kx ∈ kr := List.mem_of_mem_filter hkmem
        have habs : ∀ v ∈ vr, v.chunk_id ≠ kx.chunk_id := by
          have hpred := List.of_mem_filter hkmem
          simp only [List.all_eq_true] at hpred
          intro v hvv
          simpa using hpred v hvv
        dsimp only [kentry]
        rw [show scoreOf vr kx.chunk_id = 0 by
          unfold scoreOf
          rw [List.find?_eq_none.mpr (by intro x hx; simpa using habs x hx)]]
        rw [show scoreOf kr kx.chunk_id = kx.score by
          unfold scoreOf
          rw [find?_cid_eq_self_of_nodup kr hk kx hkr]]
        ring
    · rw [hchar]
      have hs := List.sorted_insertionSort combRel (entriesSpec vr kr)
      exact List.pairwise_map.mpr (hs.imp (fun h => h))
    · rw [hchar, List.map_map]
      have hp2 := (List.perm_insertionSort combRel (entriesSpec vr kr)).map
        (fun e => e.result.chunk_id)
      have hsplit : (entriesSpec vr kr).map (fun e => e.result.chunk_id) =
          vr.map (·.chunk_id) ++ (kwOnly vr kr).map (·.chunk_id) := by
        unfold entriesSpec
        rw [List.map_append, List.map_map, List.map_map]
        congr 1
        apply List.map_congr_left
        intro r _
        show (ventry kr r).result.chunk_id = r.chunk_id
        rw [ventry_result]
      exact hsplit ▸ hp2
    · intro r1 r2 hsub hscore
      have h1 : [ventry kr r1, ventry kr r2].Sublist (entriesSpec vr kr) := by
        unfold entriesSpec
        exact (List.Sublist.map (ventry kr) hsub).trans
          (List.sublist_append_left _ _)
      have h2 := List.pair_sublist_insertionSort (r := combRel)
        (a := ventry kr r1) (b := ventry kr r2)
        (by
          show (ventry kr r2).combined_score ≤ (ventry kr r1).combined_score
          rw [ventry_combined, ventry_combined]
          exact hscore) h1
      have h3 := List.Sublist.map
        (fun e => ({ e.result with score := e.combined_score } : SearchResult)) h2
      rw [hchar, ← f_ventry kr r1, ← f_ventry kr r2]
      exact h3

/-- Witness for C4: the general part applied to the concrete example lists
(the sortedness conjunct at that input). -/
theorem C4_witness :
    List.Sorted (fun a b : SearchResult => b.score ≤ a.score)
      (combine_search_results [exVecA] [exKwA, exKwB]) :=
  ((C4_hybrid_merge.2 [exVecA] [exKwA, exKwB] (by decide) (by decide)).2.1)

end ClaimsPipeline
